import Mathlib

/-!
# gormstore — verified model

A shallow embedding of the `gormstore` session-persistence adapter and proofs
of its specified properties.  The repository has two variants:

* the **driver variant** (`gormstore.go`): a pluggable backend storing session
  payloads by caller-supplied ID, with relative garbage collection;
* the **self-contained variant** (`part_001`): a gorilla-sessions store that
  generates IDs, wraps values in a secure-cookie envelope, performs
  expiration-aware lookups and cleanup.

The relational store collaborator (GORM) is modelled as a list of records plus
an explicit per-statement failure-injection parameter: each Go call that can
return a statement error takes an `Option String` standing for that error.
Time (`time.Now()`) is passed explicitly, in seconds, as an `Int`.
-/

namespace Driver

/-- Options for gormstore (driver variant): `TableName`, `SkipCreateTable`. -/
structure Options where
  tableName : String
  skipCreateTable : Bool
deriving Repr, DecidableEq

/-- The persisted record: `ID` (primary key), `Data`, `CreatedAt`, `UpdatedAt`.
Timestamps are seconds as `Int`. -/
structure gormSession where
  id : String
  data : String
  createdAt : Int
  updatedAt : Int
deriving Repr, DecidableEq

/-- The store: the session table contents plus options.  The `*gorm.DB` handle
itself carries no session state, so only the table rows are modelled. -/
structure Store where
  db : List gormSession
  opts : Options
deriving Repr, DecidableEq

/-- Lookup of the (at most one, since `ID` is the primary key) row matching
`id`: the `Where("id = ?", id).Limit(1).Find` query. -/
def findByID (db : List gormSession) (id : String) : Option gormSession :=
  db.find? (fun r => r.id == id)

/-- `Store.getSessionByID`: runs the `Find` statement; on a statement error
returns `nil`; otherwise returns the destination struct, which is the found
row, or the zero-value `gormSession` when no row matched (gorm's `Find` does
not error on zero rows). -/
def Store.getSessionByID (st : Store) (id : String) (findErr : Option String) :
    Option gormSession :=
  match findErr with
  | some _ => none
  | none => some ((findByID st.db id).getD { id := "", data := "", createdAt := 0, updatedAt := 0 })

/-- `Store.Read`: fetch by ID; if the fetched struct is non-nil return its
`Data` with a nil error, else return `("", nil)`. -/
def Store.Read (st : Store) (id : String) (findErr : Option String) :
    String × Option String :=
  match st.getSessionByID id findErr with
  | some s => (s.data, none)
  | none => ("", none)

/-- `Store.Destroy`: `Delete(&gormSession{}, "id = ?", id)` — removes every row
with the given ID (at most one) and propagates the statement error. -/
def Store.Destroy (st : Store) (id : String) (delErr : Option String) :
    Store × Option String :=
  match delErr with
  | some e => (st, some e)
  | none => ({ st with db := st.db.filter (fun r => !(r.id == id)) }, none)

/-- `Store.Gc`: `Delete(..., "updated_at < ?", now - maxLifetime seconds)` —
one bulk delete of the rows strictly older than the cutoff, propagating the
statement error. -/
def Store.Gc (st : Store) (maxLifetime : Int) (now : Int) (delErr : Option String) :
    Store × Option String :=
  match delErr with
  | some e => (st, some e)
  | none =>
    ({ st with db := st.db.filter (fun r => !decide (r.updatedAt < now - maxLifetime)) }, none)

/-- gorm's `Save` on a struct with a non-zero primary key: update the existing
row (refreshing `updated_at`), or insert when no row was affected. -/
def upsertWrite (db : List gormSession) (id data : String) (now : Int) :
    List gormSession :=
  if db.any (fun r => r.id == id) then
    db.map (fun r => if r.id == id then { r with data := data, updatedAt := now } else r)
  else
    db ++ [{ id := id, data := data, createdAt := now, updatedAt := now }]

/-- `Store.Write`: builds `gormSession{ID: id, Data: data}` and `Save`s it
(upsert), propagating the statement error. -/
def Store.Write (st : Store) (id data : String) (now : Int) (saveErr : Option String) :
    Store × Option String :=
  match saveErr with
  | some e => (st, some e)
  | none => ({ st with db := upsertWrite st.db id data now }, none)

/-- `Store.Close` is a no-op returning nil. -/
def Store.Close (_st : Store) : Option String := none

/-- A record with its timestamps replaced according to `f`; `id` and `data`
are untouched.  Used to state that reads never consult record age. -/
def retime (f : gormSession → Int × Int) (r : gormSession) : gormSession :=
  { r with createdAt := (f r).1, updatedAt := (f r).2 }

end Driver


namespace SC

/-! ## Self-contained variant (gorilla-sessions store)

The secure-cookie envelope is the external `securecookie` collaborator; it is
modelled symbolically, following the spec (§4.4): an encoded value remembers
the key that sealed it and the cookie name it is bound to, and decoding
succeeds exactly for the active key or a rotated key under the right name.
Randomness (`GenerateRandomKey`) and fallible encodings are passed in as
explicit inputs. -/

/-- Abstract serialized session values (the Gob-encoded `session.Values`). -/
abbrev Vals := List (String × String)

/-- A value sealed by the envelope: the key that sealed it, the cookie name it
is bound to, and the enclosed value. -/
structure Encoded (V : Type) where
  key : Nat
  name : String
  value : V
deriving Repr, DecidableEq

/-- Model of the external `securecookie` configuration built by this store:
active key, rotated keys, and the mutable max-age / max-length settings. -/
structure SecureCookie where
  activeKey : Nat
  rotatedKeys : List Nat
  scMaxAge : Int
  scMaxLength : Int
deriving Repr, DecidableEq

/-- `securecookie.Encode`: seals a value under the active key, bound to the
cookie name (spec §4.4: rotated keys are never used for new encodings). -/
def SecureCookie.Encode {V : Type} (sc : SecureCookie) (name : String) (v : V) :
    Encoded V :=
  { key := sc.activeKey, name := name, value := v }

/-- `securecookie.Decode`: accepts a value sealed under the active key or any
rotated key, bound to the same name; anything else fails (spec §4.4). -/
def SecureCookie.Decode {V : Type} (sc : SecureCookie) (name : String) (e : Encoded V) :
    Option V :=
  if e.name = name ∧ (e.key = sc.activeKey ∨ e.key ∈ sc.rotatedKeys) then some e.value
  else none

/-- Options for gormstore. -/
structure Options where
  tableName : String
  skipCreateTable : Bool
deriving Repr, DecidableEq

/-- `sessions.Options` (cookie attributes relevant to this model). -/
structure SessionOptions where
  path : String
  maxAge : Int
deriving Repr, DecidableEq

/-- The persisted record: `ID`, `Data` (the envelope-sealed values),
`CreatedAt`, `UpdatedAt`, `ExpiresAt`, timestamps in seconds. -/
structure gormSession where
  id : String
  data : Encoded Vals
  createdAt : Int
  updatedAt : Int
  expiresAt : Int
deriving Repr, DecidableEq

/-- The store: table rows, options, configured keys and the secure-cookie
envelope built from them, plus the session defaults. -/
structure Store where
  db : List gormSession
  opts : Options
  keys : List Nat
  secureCookie : SecureCookie
  SessionOpts : SessionOptions
deriving Repr, DecidableEq

/-- A `sessions.Session` as this store uses it. -/
structure Session where
  name : String
  id : String
  values : Vals
  isNew : Bool
  options : SessionOptions
deriving Repr, DecidableEq

def sessionIDLen : Nat := 32
def defaultTableName : String := "sessions"
def defaultMaxAge : Int := 60 * 60 * 24 * 30
def defaultPath : String := "/"

/-- `NewOptions`: panics (`"key required"`) when no key is supplied — modelled
as `none`; otherwise builds the store with `keys[0]` active and `keys[1:]`
rotated.  The securecookie defaults for max-age/max-length are abstracted
as the library's initial settings. -/
def NewOptions (db : List gormSession) (opts : Options) (keys : List Nat) :
    Option Store :=
  match keys with
  | [] => none
  | k :: ks =>
    let opts' := if opts.tableName = "" then { opts with tableName := defaultTableName } else opts
    some { db := db, opts := opts', keys := k :: ks,
           secureCookie := { activeKey := k, rotatedKeys := ks, scMaxAge := 0, scMaxLength := 0 },
           SessionOpts := { path := defaultPath, maxAge := defaultMaxAge } }

/-- `New`: `NewOptions` with default options. -/
def New (db : List gormSession) (keys : List Nat) : Option Store :=
  NewOptions db { tableName := "", skipCreateTable := false } keys

/-- `Store.MaxAge`: sets the session max-age and rebuilds the envelope with
the same active/rotated keys and the new max-age. -/
def Store.MaxAge (st : Store) (age : Int) : Store :=
  { st with
    SessionOpts := { st.SessionOpts with maxAge := age },
    secureCookie := { activeKey := st.keys.headD 0, rotatedKeys := st.keys.tail,
                      scMaxAge := age, scMaxLength := st.secureCookie.scMaxLength } }

/-- `Store.MaxLength`: rebuilds the envelope with the same keys and the new
max-length. -/
def Store.MaxLength (st : Store) (l : Int) : Store :=
  { st with
    secureCookie := { activeKey := st.keys.headD 0, rotatedKeys := st.keys.tail,
                      scMaxAge := st.secureCookie.scMaxAge, scMaxLength := l } }

/-- `Store.getSessionFromCookie`: if the request carries the named cookie and
its value decodes to a session ID, run
`Where("id = ? AND expires_at > ?", sessionID, now).Limit(1).Find`;
zero rows (or a statement error) yields `nil`. -/
def Store.getSessionFromCookie (st : Store) (cookie : Option (Encoded String))
    (name : String) (now : Int) : Option gormSession :=
  match cookie with
  | none => none
  | some cv =>
    match st.secureCookie.Decode name cv with
    | none => none
    | some sid => st.db.find? (fun r => r.id == sid && decide (now < r.expiresAt))

/-- `Store.New` (the method): build a fresh session (`isNew = true`, default
options), re-derive the envelope via `MaxAge`, and when the cookie resolves to
a live record whose data decodes, load it (`isNew = false`).  Returns the
session together with the store as mutated by the `MaxAge` call. -/
def Store.New (st : Store) (cookie : Option (Encoded String)) (name : String)
    (now : Int) : Session × Store :=
  let st' := st.MaxAge st.SessionOpts.maxAge
  let base : Session := { name := name, id := "", values := [], isNew := true,
                          options := st.SessionOpts }
  match st'.getSessionFromCookie cookie name now with
  | none => (base, st')
  | some s =>
    match st'.secureCookie.Decode name s.data with
    | none => (base, st')
    | some vals => ({ base with id := s.id, values := vals, isNew := false }, st')

/-- `Store.Cleanup`: `Delete(..., "expires_at <= ?", now)`; the statement
error is discarded by the source. -/
def Store.Cleanup (st : Store) (now : Int) : Store :=
  { st with db := st.db.filter (fun r => !decide (r.expiresAt ≤ now)) }

/-! ### Session-ID generation: `base32.StdEncoding` with trailing `=` trimmed -/

/-- The RFC 4648 standard base-32 alphabet used by `base32.StdEncoding`. -/
def base32Alphabet : List Char := "ABCDEFGHIJKLMNOPQRSTUVWXYZ234567".toList

/-- The alphabet character for a 5-bit group. -/
def b32char (n : Nat) : Char := base32Alphabet.getD (n % 32) 'A'

/-- One full 5-byte input block encoded as eight 5-bit groups (big-endian bit
order, as in `encoding/base32`). -/
def group5 (b0 b1 b2 b3 b4 : Nat) : List Char :=
  [ b32char (b0 / 8),
    b32char (b0 % 8 * 4 + b1 / 64),
    b32char (b1 / 2 % 32),
    b32char (b1 % 2 * 16 + b2 / 16),
    b32char (b2 % 16 * 2 + b3 / 128),
    b32char (b3 / 4 % 32),
    b32char (b3 % 4 * 8 + b4 / 32),
    b32char (b4 % 32) ]

/-- `base32.StdEncoding.EncodeToString` over a byte list: full 5-byte blocks,
then the padded remainder block. -/
def b32encode : List Nat → List Char
  | b0 :: b1 :: b2 :: b3 :: b4 :: rest => group5 b0 b1 b2 b3 b4 ++ b32encode rest
  | [b0] => [b32char (b0 / 8), b32char (b0 % 8 * 4)] ++ List.replicate 6 '='
  | [b0, b1] =>
    [b32char (b0 / 8), b32char (b0 % 8 * 4 + b1 / 64), b32char (b1 / 2 % 32),
     b32char (b1 % 2 * 16)] ++ List.replicate 4 '='
  | [b0, b1, b2] =>
    [b32char (b0 / 8), b32char (b0 % 8 * 4 + b1 / 64), b32char (b1 / 2 % 32),
     b32char (b1 % 2 * 16 + b2 / 16), b32char (b2 % 16 * 2)] ++ List.replicate 3 '='
  | [b0, b1, b2, b3] =>
    [b32char (b0 / 8), b32char (b0 % 8 * 4 + b1 / 64), b32char (b1 / 2 % 32),
     b32char (b1 % 2 * 16 + b2 / 16), b32char (b2 % 16 * 2 + b3 / 128),
     b32char (b3 / 4 % 32), b32char (b3 % 4 * 8)] ++ List.replicate 1 '='
  | [] => []

/-- `strings.TrimRight(s, "=")` on a character list. -/
def trimEq (cs : List Char) : List Char :=
  (cs.reverse.dropWhile (fun c => c == '=')).reverse

/-- The session ID built by `Save` for a new session from the output of
`securecookie.GenerateRandomKey(sessionIDLen)`:
`strings.TrimRight(base32.StdEncoding.EncodeToString(bytes), "=")`. -/
def newSessionID (bytes : List Nat) : List Char := trimEq (b32encode bytes)

/-! ### Save -/

/-- An `http.Cookie` as produced by `sessions.NewCookie`: name, value (`none`
models the empty string), and the options' max-age. -/
structure Cookie where
  name : String
  value : Option (Encoded String)
  maxAge : Int
deriving Repr, DecidableEq

/-- The per-call inputs of `Save` that the source obtains from its
collaborators: the request cookie, the random bytes drawn for a fresh ID, and
the injected failure (if any) of each fallible collaborator call. -/
structure SaveInput where
  cookie : Option (Encoded String)
  randomBytes : List Nat
  encodeDataErr : Option String
  storeErr : Option String
  encodeIDErr : Option String
deriving Repr, DecidableEq

/-- What `Save` produces: the table afterwards, the `Set-Cookie` header (if
one was written), the session ID after the call, and the returned error. -/
structure SaveResult where
  db : List gormSession
  header : Option Cookie
  sessionID : String
  error : Option String
deriving Repr, DecidableEq

/-- gorm `Save` of a record fetched from the table: update in place by ID. -/
def upsertByID (db : List gormSession) (s : gormSession) : List gormSession :=
  db.map (fun r => if r.id == s.id then s else r)

/-- `Store.Save`: negative max-age deletes the record found via the cookie
(propagating a delete failure) and writes a clearing cookie; otherwise the
values are sealed, the record is inserted (with a freshly generated ID) or
updated, and the ID is sealed into the response cookie.  Failures of the
encode and statement calls return early with the error. -/
def Store.Save (st : Store) (session : Session) (now : Int) (inp : SaveInput) :
    SaveResult :=
  let s? := st.getSessionFromCookie inp.cookie session.name now
  if session.options.maxAge < 0 then
    match s? with
    | some s =>
      match inp.storeErr with
      | some e => { db := st.db, header := none, sessionID := session.id, error := some e }
      | none =>
        { db := st.db.filter (fun r => !(r.id == s.id)),
          header := some { name := session.name, value := none, maxAge := session.options.maxAge },
          sessionID := session.id, error := none }
    | none =>
      { db := st.db,
        header := some { name := session.name, value := none, maxAge := session.options.maxAge },
        sessionID := session.id, error := none }
  else
    match inp.encodeDataErr with
    | some e => { db := st.db, header := none, sessionID := session.id, error := some e }
    | none =>
      let data := st.secureCookie.Encode session.name session.values
      let expire := now + session.options.maxAge
      match s? with
      | none =>
        let freshID : String := String.mk (newSessionID inp.randomBytes)
        match inp.storeErr with
        | some e => { db := st.db, header := none, sessionID := freshID, error := some e }
        | none =>
          let s : gormSession := { id := freshID, data := data, createdAt := now,
                                   updatedAt := now, expiresAt := expire }
          let db' := st.db ++ [s]
          match inp.encodeIDErr with
          | some e => { db := db', header := none, sessionID := freshID, error := some e }
          | none =>
            { db := db',
              header := some { name := session.name,
                               value := some (st.secureCookie.Encode session.name s.id),
                               maxAge := session.options.maxAge },
              sessionID := freshID, error := none }
      | some s =>
        let s' := { s with data := data, updatedAt := now, expiresAt := expire }
        match inp.storeErr with
        | some e => { db := st.db, header := none, sessionID := session.id, error := some e }
        | none =>
          let db' := upsertByID st.db s'
          match inp.encodeIDErr with
          | some e => { db := db', header := none, sessionID := session.id, error := some e }
          | none =>
            { db := db',
              header := some { name := session.name,
                               value := some (st.secureCookie.Encode session.name s'.id),
                               maxAge := session.options.maxAge },
              sessionID := session.id, error := none }

theorem getSessionFromCookie_some (st : Store) (cookie : Option (Encoded String))
    (name : String) (now : Int) (r : gormSession)
    (h : st.getSessionFromCookie cookie name now = some r) :
    r ∈ st.db ∧ now < r.expiresAt := by
  unfold Store.getSessionFromCookie at h
  cases cookie with
  | none => exact absurd h (by simp)
  | some cv =>
    simp only at h
    cases hdec : st.secureCookie.Decode name cv with
    | none => rw [hdec] at h; exact absurd h (by simp)
    | some sid =>
      rw [hdec] at h
      refine ⟨List.mem_of_find?_eq_some h, ?_⟩
      have hp := List.find?_some h
      simp only [Bool.and_eq_true, decide_eq_true_eq] at hp
      exact hp.2

theorem mem_cleanup_iff (st : Store) (now : Int) (r : gormSession) :
    r ∈ (st.Cleanup now).db ↔ (r ∈ st.db ∧ now < r.expiresAt) := by
  unfold Store.Cleanup
  simp only [List.mem_filter, Bool.not_eq_true', decide_eq_false_iff_not, not_le]

theorem b32char_mem (n : Nat) : b32char n ∈ base32Alphabet := by
  have h : ∀ m, m < 32 → base32Alphabet.getD m 'A' ∈ base32Alphabet := by decide
  exact h (n % 32) (Nat.mod_lt _ (by norm_num))

theorem group5_mem (b0 b1 b2 b3 b4 : Nat) :
    ∀ c ∈ group5 b0 b1 b2 b3 b4, c ∈ base32Alphabet := by
  intro c hc
  simp only [group5, List.mem_cons, List.not_mem_nil, or_false] at hc
  rcases hc with rfl | rfl | rfl | rfl | rfl | rfl | rfl | rfl <;> exact b32char_mem _

/-- Shape of the standard base-32 encoding of `5 * n + 2` bytes: `8 * n + 4`
alphabet characters followed by exactly four padding characters. -/
theorem b32encode_blocks (n : Nat) : ∀ bs : List Nat, bs.length = 5 * n + 2 →
    ∃ pre : List Char, b32encode bs = pre ++ List.replicate 4 '=' ∧
      pre.length = 8 * n + 4 ∧ ∀ c ∈ pre, c ∈ base32Alphabet := by
  induction n with
  | zero =>
    intro bs hlen
    cases bs with
    | nil => simp at hlen
    | cons b0 t0 =>
      cases t0 with
      | nil => simp at hlen
      | cons b1 t1 =>
        cases t1 with
        | cons b2 t2 =>
          simp only [List.length_cons] at hlen
          omega
        | nil =>
          refine ⟨[b32char (b0 / 8), b32char (b0 % 8 * 4 + b1 / 64), b32char (b1 / 2 % 32),
            b32char (b1 % 2 * 16)], rfl, rfl, ?_⟩
          intro c hc
          simp only [List.mem_cons, List.not_mem_nil, or_false] at hc
          rcases hc with rfl | rfl | rfl | rfl <;> exact b32char_mem _
  | succ n ih =>
    intro bs hlen
    cases bs with
    | nil => simp only [List.length_nil] at hlen; omega
    | cons b0 t0 =>
      cases t0 with
      | nil => simp only [List.length_cons, List.length_nil] at hlen; omega
      | cons b1 t1 =>
        cases t1 with
        | nil => simp only [List.length_cons, List.length_nil] at hlen; omega
        | cons b2 t2 =>
          cases t2 with
          | nil => simp only [List.length_cons, List.length_nil] at hlen; omega
          | cons b3 t3 =>
            cases t3 with
            | nil => simp only [List.length_cons, List.length_nil] at hlen; omega
            | cons b4 rest =>
              have hrest : rest.length = 5 * n + 2 := by
                simp only [List.length_cons] at hlen
                omega
              obtain ⟨pre, henc, hlen', hmem⟩ := ih rest hrest
              refine ⟨group5 b0 b1 b2 b3 b4 ++ pre, ?_, ?_, ?_⟩
              · show group5 b0 b1 b2 b3 b4 ++ b32encode rest = _
                rw [henc, List.append_assoc]
              · simp only [List.length_append, hlen', group5, List.length_cons,
                  List.length_nil]
                omega
              · intro c hc
                rcases List.mem_append.mp hc with hc | hc
                · exact group5_mem b0 b1 b2 b3 b4 c hc
                · exact hmem c hc

theorem dropWhile_replicate_eq_append (k : Nat) (l : List Char) :
    List.dropWhile (fun c => c == '=') (List.replicate k '=' ++ l)
      = List.dropWhile (fun c => c == '=') l := by
  induction k with
  | zero => rfl
  | succ k ih =>
    rw [List.replicate_succ, List.cons_append, List.dropWhile_cons]
    simp only [beq_self_eq_true, if_true]
    exact ih

/-- `TrimRight(·, "=")` of alphabet characters followed by padding strips
exactly the padding. -/
theorem trimEq_append_replicate (pre : List Char) (k : Nat)
    (hmem : ∀ c ∈ pre, c ∈ base32Alphabet) :
    trimEq (pre ++ List.replicate k '=') = pre := by
  unfold trimEq
  rw [List.reverse_append, List.reverse_replicate, dropWhile_replicate_eq_append]
  have hstay : List.dropWhile (fun c => c == '=') pre.reverse = pre.reverse := by
    cases hrev : pre.reverse with
    | nil => rfl
    | cons c t =>
      rw [List.dropWhile_cons]
      have hc : c ∈ pre := by
        rw [← List.mem_reverse, hrev]
        exact List.mem_cons_self _ _
      have hne' : ¬((c == '=') = true) := by
        intro hb
        have hcq : c = '=' := by simpa using hb
        subst hcq
        have := hmem _ hc
        revert this
        decide
      rw [if_neg hne']
  rw [hstay, List.reverse_reverse]

/-- The generated session ID for 32 random bytes: 52 characters, all from the
base-32 alphabet. -/
theorem newSessionID_spec (bytes : List Nat) (hlen : bytes.length = 32) :
    (newSessionID bytes).length = 52 ∧ ∀ c ∈ newSessionID bytes, c ∈ base32Alphabet := by
  obtain ⟨pre, henc, hlen', hmem⟩ := b32encode_blocks 6 bytes (by omega)
  unfold newSessionID
  rw [henc, trimEq_append_replicate pre 4 hmem]
  exact ⟨by omega, hmem⟩

end SC

namespace Driver

/-! ### Helper lemmas about lookup after upsert -/

theorem findByID_map_update (db : List gormSession) (id data : String) (now : Int)
    (h : db.any (fun r => r.id == id) = true) :
    ∃ r, findByID
        (db.map (fun r => if r.id == id then { r with data := data, updatedAt := now } else r)) id
        = some r ∧ r.id = id ∧ r.data = data ∧ r.updatedAt = now := by
  induction db with
  | nil => simp at h
  | cons a t ih =>
    by_cases ha : a.id = id
    · have hb : (a.id == id) = true := by simpa using ha
      refine ⟨{ a with data := data, updatedAt := now }, ?_, ha, rfl, rfl⟩
      unfold findByID
      rw [List.map_cons, if_pos hb, List.find?_cons_of_pos]
      simpa using ha
    · have hb : ¬((a.id == id) = true) := by simpa using ha
      have ht : t.any (fun r => r.id == id) = true := by
        simp only [List.any_cons, Bool.or_eq_true] at h
        rcases h with h1 | h1
        · exact absurd (by simpa using h1) ha
        · exact h1
      obtain ⟨r, hr, hrid, hrdata, hrupd⟩ := ih ht
      refine ⟨r, ?_, hrid, hrdata, hrupd⟩
      unfold findByID at hr ⊢
      rw [List.map_cons, if_neg hb, List.find?_cons_of_neg]
      · exact hr
      · simpa using ha

theorem findByID_append_new (db : List gormSession) (id : String) (s : gormSession)
    (h : db.any (fun r => r.id == id) = false) (hs : s.id = id) :
    findByID (db ++ [s]) id = some s := by
  induction db with
  | nil =>
    unfold findByID
    rw [List.nil_append, List.find?_cons_of_pos]
    simpa using hs
  | cons a t ih =>
    simp only [List.any_cons, Bool.or_eq_false_iff] at h
    have ht := ih h.2
    unfold findByID at ht ⊢
    rw [List.cons_append, List.find?_cons_of_neg]
    · exact ht
    · simpa using h.1

theorem findByID_upsertWrite (db : List gormSession) (id data : String) (now : Int) :
    ∃ r, findByID (upsertWrite db id data now) id = some r ∧
      r.id = id ∧ r.data = data ∧ r.updatedAt = now := by
  unfold upsertWrite
  by_cases h : db.any (fun r => r.id == id) = true
  · simpa [h] using findByID_map_update db id data now h
  · have h' : db.any (fun r => r.id == id) = false := by
      simpa using h
    refine ⟨{ id := id, data := data, createdAt := now, updatedAt := now }, ?_, rfl, rfl, rfl⟩
    simpa [h'] using
      findByID_append_new db id { id := id, data := data, createdAt := now, updatedAt := now }
        h' rfl


theorem read_ignores_timestamps (db : List gormSession) (opts : Options)
    (f : gormSession → Int × Int) (id : String) (ferr : Option String) :
    Store.Read ⟨db.map (retime f), opts⟩ id ferr = Store.Read ⟨db, opts⟩ id ferr := by
  cases ferr with
  | some e => rfl
  | none =>
    unfold Store.Read Store.getSessionByID findByID retime
    rw [List.find?_map]
    have hp : ((fun r => r.id == id) ∘
        fun r => { r with createdAt := (f r).1, updatedAt := (f r).2 }) =
          (fun r : gormSession => r.id == id) := rfl
    rw [hp]
    cases h : db.find? (fun r => r.id == id) with
    | none => simp
    | some r => simp

theorem mem_gc_iff (st : Store) (m now : Int) (r : gormSession) :
    r ∈ (st.Gc m now none).1.db ↔ (r ∈ st.db ∧ ¬(r.updatedAt < now - m)) := by
  unfold Store.Gc
  simp [List.mem_filter]

end Driver

/-- C2.  Self-contained-variant absolute expiry: the cookie lookup only ever
returns a record with `expiresAt` strictly in the future; when every stored
record has expired the built session is fresh (`isNew = true`) even before
`Cleanup` runs; and `Cleanup now` keeps exactly the records with
`expiresAt > now`. -/
theorem claim_C2_absolute_expiry (st : SC.Store) (cookie : Option (SC.Encoded String))
    (name : String) (now : Int) :
    (∀ r, st.getSessionFromCookie cookie name now = some r → now < r.expiresAt) ∧
    ((∀ r ∈ st.db, r.expiresAt ≤ now) → ((st.New cookie name now).1).isNew = true) ∧
    (∀ r, r ∈ (st.Cleanup now).db ↔ (r ∈ st.db ∧ now < r.expiresAt)) := by
  refine ⟨fun r h => (SC.getSessionFromCookie_some st cookie name now r h).2, ?_,
    SC.mem_cleanup_iff st now⟩
  intro hall
  unfold SC.Store.New
  simp only
  cases h : (st.MaxAge st.SessionOpts.maxAge).getSessionFromCookie cookie name now with
  | none => rfl
  | some s =>
    obtain ⟨hmem, hlt⟩ :=
      SC.getSessionFromCookie_some (st.MaxAge st.SessionOpts.maxAge) cookie name now s h
    have : s.expiresAt ≤ now := hall s hmem
    omega

/-- C2 witness: a store holding a single record expired one second ago, with a
valid cookie for it: the built session is fresh, and cleanup removes the
record while a live record would survive. -/
theorem claim_C2_witness :
    let dead : SC.gormSession :=
      { id := "S", data := { key := 1, name := "n", value := [] },
        createdAt := 0, updatedAt := 0, expiresAt := 9 }
    let st : SC.Store :=
      { db := [dead], opts := { tableName := "sessions", skipCreateTable := false },
        keys := [1],
        secureCookie := { activeKey := 1, rotatedKeys := [], scMaxAge := 0, scMaxLength := 0 },
        SessionOpts := { path := "/", maxAge := 100 } }
    let cookie : Option (SC.Encoded String) := some { key := 1, name := "n", value := "S" }
    ((st.New cookie "n" 10).1).isNew = true ∧ dead ∉ (st.Cleanup 10).db := by
  intro dead st cookie
  have h := claim_C2_absolute_expiry st cookie "n" 10
  refine ⟨h.2.1 (by decide), ?_⟩
  intro hmem
  have := (h.2.2 dead).mp hmem
  revert this
  decide

/-- C4.  Self-contained-variant construction with zero keys fails fatally
(`NewOptions` panics, modelled as `none`); with at least one key it
succeeds. -/
theorem claim_C4_zero_keys_fatal (db : List SC.gormSession) (opts : SC.Options) :
    SC.NewOptions db opts [] = none ∧
    ∀ (k : Nat) (ks : List Nat), (SC.NewOptions db opts (k :: ks)).isSome = true :=
  ⟨rfl, fun _ _ => rfl⟩

/-- C6.  Key rotation: a store built from keys `k :: ks` seals every new
encoding under `k` alone; decoding accepts exactly the keys in `k :: ks`
(so a value sealed under an old active key still decodes while that key stays
in the rotated set); a cookie sealed under a removed key is treated as no
session; and `MaxAge` rebuilds the envelope with the same key set. -/
theorem claim_C6_key_rotation {V : Type} (db : List SC.gormSession) (opts : SC.Options)
    (k : Nat) (ks : List Nat) (st : SC.Store)
    (h : SC.NewOptions db opts (k :: ks) = some st)
    (name : String) (v : V) (now : Int) :
    (st.secureCookie.Encode name v = { key := k, name := name, value := v }) ∧
    (∀ key', key' ∈ k :: ks →
      st.secureCookie.Decode name { key := key', name := name, value := v } = some v) ∧
    (∀ key', key' ∉ k :: ks →
      st.secureCookie.Decode name { key := key', name := name, value := v } = none) ∧
    (∀ key' sid, key' ∉ k :: ks →
      st.getSessionFromCookie (some { key := key', name := name, value := sid }) name now
        = none) ∧
    (∀ age, (st.MaxAge age).secureCookie.activeKey = k ∧
      (st.MaxAge age).secureCookie.rotatedKeys = ks) := by
  have hst : st.secureCookie =
      { activeKey := k, rotatedKeys := ks, scMaxAge := 0, scMaxLength := 0 } := by
    unfold SC.NewOptions at h
    simp only [Option.some.injEq] at h
    rw [← h]
  have hkeys : st.keys = k :: ks := by
    unfold SC.NewOptions at h
    simp only [Option.some.injEq] at h
    rw [← h]
  refine ⟨?_, ?_, ?_, ?_, ?_⟩
  · rw [SC.SecureCookie.Encode, hst]
  · intro key' hk
    have hcond : key' = k ∨ key' ∈ ks := List.mem_cons.mp hk
    simp [SC.SecureCookie.Decode, hst, hcond]
  · intro key' hk
    have hcond : ¬(key' = k ∨ key' ∈ ks) := fun hc => hk (List.mem_cons.mpr hc)
    simp [SC.SecureCookie.Decode, hst, hcond]
  · intro key' sid hk
    have hcond : ¬(key' = k ∨ key' ∈ ks) := fun hc => hk (List.mem_cons.mpr hc)
    simp [SC.Store.getSessionFromCookie, SC.SecureCookie.Decode, hst, hcond]
  · intro age
    unfold SC.Store.MaxAge
    rw [hkeys]
    exact ⟨rfl, rfl⟩

/-- C6 witness: with active key 1, an encoding is sealed under 1; after
rotating to keys `[2, 1]` it still decodes; after dropping key 1 (keys `[2]`)
it fails and the cookie lookup misses. -/
theorem claim_C6_witness :
    let v : SC.Vals := [("u", "alice")]
    ∃ st1 st2 st3 : SC.Store,
      SC.NewOptions [] { tableName := "", skipCreateTable := false } [1] = some st1 ∧
      SC.NewOptions [] { tableName := "", skipCreateTable := false } [2, 1] = some st2 ∧
      SC.NewOptions [] { tableName := "", skipCreateTable := false } [2] = some st3 ∧
      st1.secureCookie.Encode "n" v = { key := 1, name := "n", value := v } ∧
      st2.secureCookie.Decode "n" { key := 1, name := "n", value := v } = some v ∧
      st3.secureCookie.Decode "n" { key := 1, name := "n", value := v } = none := by
  intro v
  refine ⟨_, _, _, rfl, rfl, rfl, ?_, ?_, ?_⟩
  · exact (claim_C6_key_rotation [] _ 1 [] _ rfl "n" v 0).1
  · exact (claim_C6_key_rotation [] _ 2 [1] _ rfl "n" v 0).2.1 1 (by decide)
  · exact (claim_C6_key_rotation [] _ 2 [] _ rfl "n" v 0).2.2.1 1 (by decide)

/-- C5.  Negative max-age `Save`: no record is ever created; when the delete
statement succeeds (or none is needed) the call succeeds and writes a
cookie-clearing header (empty value, the session's negative max-age), deleting
the record the cookie resolves to, if any; an error is returned exactly when a
record was found and its delete failed. -/
theorem claim_C5_negative_max_age_save (st : SC.Store) (session : SC.Session)
    (now : Int) (inp : SC.SaveInput) (hneg : session.options.maxAge < 0) :
    (∀ r ∈ (st.Save session now inp).db, r ∈ st.db) ∧
    (inp.storeErr = none →
      (st.Save session now inp).error = none ∧
      (st.Save session now inp).header =
        some { name := session.name, value := none, maxAge := session.options.maxAge } ∧
      (match st.getSessionFromCookie inp.cookie session.name now with
       | some s => (st.Save session now inp).db = st.db.filter (fun r => !(r.id == s.id))
       | none => (st.Save session now inp).db = st.db)) ∧
    (∀ e, inp.storeErr = some e →
      (st.getSessionFromCookie inp.cookie session.name now).isSome = true →
      (st.Save session now inp).error = some e) := by
  unfold SC.Store.Save
  rw [if_pos hneg]
  cases h : st.getSessionFromCookie inp.cookie session.name now with
  | none =>
    refine ⟨?_, ?_, ?_⟩
    · intro r hr
      simpa using hr
    · intro hnone
      simp
    · intro e he hsome
      simp at hsome
  | some s =>
    cases herr : inp.storeErr with
    | some e =>
      refine ⟨?_, ?_, ?_⟩
      · intro r hr
        simpa using hr
      · intro hnone
        simp at hnone
      · intro e' he' _
        injection he' with hee
        subst hee
        simp
    | none =>
      refine ⟨?_, ?_, ?_⟩
      · intro r hr
        simp only [List.mem_filter] at hr
        exact hr.1
      · intro _
        simp
      · intro e he _
        simp at he

/-- C5 witness: a one-record store, a cookie resolving to that record and a
session with max-age `-1`: the save succeeds, clears the cookie, empties the
table and creates nothing. -/
theorem claim_C5_witness :
    let rec0 : SC.gormSession :=
      { id := "S", data := { key := 1, name := "n", value := [] },
        createdAt := 0, updatedAt := 0, expiresAt := 100 }
    let st : SC.Store :=
      { db := [rec0], opts := { tableName := "sessions", skipCreateTable := false },
        keys := [1],
        secureCookie := { activeKey := 1, rotatedKeys := [], scMaxAge := 0, scMaxLength := 0 },
        SessionOpts := { path := "/", maxAge := 100 } }
    let session : SC.Session :=
      { name := "n", id := "S", values := [], isNew := false,
        options := { path := "/", maxAge := -1 } }
    let inp : SC.SaveInput :=
      { cookie := some { key := 1, name := "n", value := "S" }, randomBytes := [],
        encodeDataErr := none, storeErr := none, encodeIDErr := none }
    (st.Save session 10 inp).error = none ∧
    (st.Save session 10 inp).header = some { name := "n", value := none, maxAge := -1 } ∧
    (st.Save session 10 inp).db = [] := by
  intro rec0 st session inp
  have h := claim_C5_negative_max_age_save st session 10 inp (by decide)
  obtain ⟨herr, hheader, hdb⟩ := h.2.1 rfl
  refine ⟨herr, hheader, ?_⟩
  have hc : st.getSessionFromCookie inp.cookie session.name 10 = some rec0 := by decide
  rw [hc] at hdb
  exact hdb

/-- C9.  Session-ID generation: for any 32 random bytes, the generated ID is
the base-32 encoding with trailing `=` stripped — a fixed-length (52) string
over the base-32 alphabet — and a `Save` that creates a new session inserts a
record under exactly that ID by appending to the table, with no check against
the existing records (the equation holds for every `st.db`, including tables
already containing that ID). -/
theorem claim_C9_session_id_generation (bytes : List Nat) (hlen : bytes.length = 32)
    (st : SC.Store) (session : SC.Session) (now : Int) (inp : SC.SaveInput)
    (hbytes : inp.randomBytes = bytes)
    (hcookie : st.getSessionFromCookie inp.cookie session.name now = none)
    (hpos : ¬ session.options.maxAge < 0)
    (hdata : inp.encodeDataErr = none)
    (hstore : inp.storeErr = none)
    (hid : inp.encodeIDErr = none) :
    SC.newSessionID bytes = SC.trimEq (SC.b32encode bytes) ∧
    (SC.newSessionID bytes).length = 52 ∧
    (∀ c ∈ SC.newSessionID bytes, c ∈ SC.base32Alphabet) ∧
    (st.Save session now inp).sessionID = String.mk (SC.newSessionID bytes) ∧
    (st.Save session now inp).db = st.db ++
      [{ id := String.mk (SC.newSessionID bytes),
         data := st.secureCookie.Encode session.name session.values,
         createdAt := now, updatedAt := now,
         expiresAt := now + session.options.maxAge }] := by
  obtain ⟨h52, hmem⟩ := SC.newSessionID_spec bytes hlen
  have hsave : st.Save session now inp =
      { db := st.db ++ [{ id := String.mk (SC.newSessionID bytes),
                          data := st.secureCookie.Encode session.name session.values,
                          createdAt := now, updatedAt := now,
                          expiresAt := now + session.options.maxAge }],
        header := some { name := session.name,
                         value := some (st.secureCookie.Encode session.name
                           (String.mk (SC.newSessionID bytes))),
                         maxAge := session.options.maxAge },
        sessionID := String.mk (SC.newSessionID bytes),
        error := none } := by
    unfold SC.Store.Save
    rw [if_neg hpos, hdata]
    simp only
    rw [hcookie, hstore, hid, hbytes]
  refine ⟨rfl, h52, hmem, ?_, ?_⟩ <;> rw [hsave]

/-- C9 witness: 32 zero bytes produce the 52-character ID
`"AAAA…A"`, and a cookie-less save on a store already holding a record with
that very ID appends a second one — no pre-insert existence check. -/
theorem claim_C9_witness :
    let bytes : List Nat := List.replicate 32 0
    let clash : SC.gormSession :=
      { id := String.mk (SC.newSessionID bytes),
        data := { key := 1, name := "n", value := [] },
        createdAt := 0, updatedAt := 0, expiresAt := 100 }
    let st : SC.Store :=
      { db := [clash], opts := { tableName := "sessions", skipCreateTable := false },
        keys := [1],
        secureCookie := { activeKey := 1, rotatedKeys := [], scMaxAge := 0, scMaxLength := 0 },
        SessionOpts := { path := "/", maxAge := 100 } }
    let session : SC.Session :=
      { name := "n", id := "", values := [], isNew := true,
        options := { path := "/", maxAge := 50 } }
    let inp : SC.SaveInput :=
      { cookie := none, randomBytes := bytes,
        encodeDataErr := none, storeErr := none, encodeIDErr := none }
    (SC.newSessionID bytes).length = 52 ∧
    (st.Save session 10 inp).sessionID = String.mk (SC.newSessionID bytes) ∧
    (st.Save session 10 inp).db = [clash,
      { id := String.mk (SC.newSessionID bytes),
        data := { key := 1, name := "n", value := [] },
        createdAt := 10, updatedAt := 10, expiresAt := 60 }] := by
  intro bytes clash st session inp
  have h := claim_C9_session_id_generation bytes (by decide) st session 10 inp rfl rfl
    (by decide) rfl rfl rfl
  exact ⟨h.2.1, h.2.2.2.1, h.2.2.2.2⟩

/-- C10.  `Save` is not atomic with the cookie: when the insert/update
succeeded but sealing the session ID for the cookie fails, the call returns
that error and writes no header, yet the freshly written record (sealed data,
refreshed `updatedAt`/`expiresAt`) is in the table. -/
theorem claim_C10_save_not_atomic (st : SC.Store) (session : SC.Session)
    (now : Int) (inp : SC.SaveInput) (e : String)
    (hpos : ¬ session.options.maxAge < 0)
    (hdata : inp.encodeDataErr = none)
    (hstore : inp.storeErr = none)
    (hid : inp.encodeIDErr = some e) :
    (st.Save session now inp).error = some e ∧
    (st.Save session now inp).header = none ∧
    (∃ r ∈ (st.Save session now inp).db,
      r.data = st.secureCookie.Encode session.name session.values ∧
      r.updatedAt = now ∧ r.expiresAt = now + session.options.maxAge) := by
  unfold SC.Store.Save
  rw [if_neg hpos, hdata]
  simp only
  cases h : st.getSessionFromCookie inp.cookie session.name now with
  | none =>
    rw [hstore, hid]
    refine ⟨rfl, rfl, ?_⟩
    refine ⟨_, List.mem_append_right _ (List.mem_singleton_self _), rfl, rfl, rfl⟩
  | some s =>
    rw [hstore, hid]
    have hmem : s ∈ st.db := (SC.getSessionFromCookie_some st inp.cookie session.name now s h).1
    have hs' : ∃ s' : SC.gormSession,
        s' = { s with data := st.secureCookie.Encode session.name session.values,
                      updatedAt := now, expiresAt := now + session.options.maxAge } :=
      ⟨_, rfl⟩
    obtain ⟨s', hdef⟩ := hs'
    refine ⟨rfl, rfl, s', ?_, by rw [hdef], by rw [hdef], by rw [hdef]⟩
    show s' ∈ SC.upsertByID st.db _
    unfold SC.upsertByID
    refine List.mem_map.mpr ⟨s, hmem, ?_⟩
    rw [hdef]
    rw [if_pos]
    simp

/-- C10 witness: a successful update whose ID-sealing step fails leaves the
updated record in the table, returns the error and writes no header. -/
theorem claim_C10_witness :
    let rec0 : SC.gormSession :=
      { id := "S", data := { key := 1, name := "n", value := [] },
        createdAt := 0, updatedAt := 0, expiresAt := 100 }
    let st : SC.Store :=
      { db := [rec0], opts := { tableName := "sessions", skipCreateTable := false },
        keys := [1],
        secureCookie := { activeKey := 1, rotatedKeys := [], scMaxAge := 0, scMaxLength := 0 },
        SessionOpts := { path := "/", maxAge := 100 } }
    let session : SC.Session :=
      { name := "n", id := "S", values := [("u", "alice")], isNew := false,
        options := { path := "/", maxAge := 50 } }
    let inp : SC.SaveInput :=
      { cookie := some { key := 1, name := "n", value := "S" }, randomBytes := [],
        encodeDataErr := none, storeErr := none, encodeIDErr := some "seal" }
    (st.Save session 10 inp).error = some "seal" ∧
    (st.Save session 10 inp).header = none ∧
    (∃ r ∈ (st.Save session 10 inp).db,
      r.data = { key := 1, name := "n", value := [("u", "alice")] } ∧
      r.updatedAt = 10 ∧ r.expiresAt = 60) := by
  intro rec0 st session inp
  exact claim_C10_save_not_atomic st session 10 inp "seal" (by decide) rfl rfl rfl

/-- C1.  Driver-variant round-trip: for every ID `K` and payload `P` (and any
current time, with the underlying statements succeeding), `Write K P` followed
by `Read K` on the resulting store returns `P` with a nil error. -/
theorem claim_C1_round_trip (st : Driver.Store) (K P : String) (now : Int) :
    (st.Write K P now none).2 = none ∧
    (st.Write K P now none).1.Read K none = (P, none) := by
  refine ⟨rfl, ?_⟩
  obtain ⟨r, hr, _, hdata, _⟩ := Driver.findByID_upsertWrite st.db K P now
  unfold Driver.Store.Write Driver.Store.Read Driver.Store.getSessionByID
  simp only
  rw [hr]
  simp [hdata]

/-- C3.  Driver-variant relative expiry: `Gc maxLifetime` keeps exactly the
records with `updatedAt ≥ now - maxLifetime` (so a record at
`now - maxLifetime - 1` is removed and one at `now - maxLifetime + 1`
survives), and `Read` never filters records by age: retiming every record
leaves every read unchanged. -/
theorem claim_C3_relative_expiry (st : Driver.Store) (m now : Int) :
    (∀ r, r ∈ (st.Gc m now none).1.db ↔ (r ∈ st.db ∧ ¬(r.updatedAt < now - m))) ∧
    (∀ r ∈ st.db, r.updatedAt = now - m - 1 → r ∉ (st.Gc m now none).1.db) ∧
    (∀ r ∈ st.db, r.updatedAt = now - m + 1 → r ∈ (st.Gc m now none).1.db) ∧
    (∀ (f : Driver.gormSession → Int × Int) (id : String) (ferr : Option String),
      Driver.Store.Read ⟨st.db.map (Driver.retime f), st.opts⟩ id ferr = st.Read id ferr) := by
  refine ⟨Driver.mem_gc_iff st m now, ?_, ?_, ?_⟩
  · intro r hr hu hmem
    have := ((Driver.mem_gc_iff st m now r).mp hmem).2
    omega
  · intro r hr hu
    exact (Driver.mem_gc_iff st m now r).mpr ⟨hr, by omega⟩
  · intro f id ferr
    exact Driver.read_ignores_timestamps st.db st.opts f id ferr

/-- C3 witness: a two-record store at concrete times; the record one second
past the lifetime is collected, the record one second inside it survives, and
a read is unchanged by retiming. -/
theorem claim_C3_witness :
    let old : Driver.gormSession := { id := "a", data := "x", createdAt := 0, updatedAt := 89 }
    let fresh : Driver.gormSession := { id := "b", data := "y", createdAt := 0, updatedAt := 91 }
    let st : Driver.Store := { db := [old, fresh], opts := { tableName := "sessions", skipCreateTable := false } }
    old ∉ (st.Gc 10 100 none).1.db ∧ fresh ∈ (st.Gc 10 100 none).1.db := by
  intro old fresh st
  have h := claim_C3_relative_expiry st 10 100
  exact ⟨h.2.1 old (by decide) (by decide), h.2.2.1 fresh (by decide) (by decide)⟩

/-- C7.  Idempotent delete: `Destroy K` (statement succeeding) returns a nil
error whether or not a record with ID `K` exists, afterwards no record with ID
`K` remains, and when no such record existed the table is unchanged. -/
theorem claim_C7_idempotent_destroy (st : Driver.Store) (K : String) :
    (st.Destroy K none).2 = none ∧
    (∀ r ∈ (st.Destroy K none).1.db, r.id ≠ K) ∧
    (Driver.findByID st.db K = none → (st.Destroy K none).1.db = st.db) := by
  refine ⟨rfl, ?_, ?_⟩
  · intro r hr
    unfold Driver.Store.Destroy at hr
    simp only [List.mem_filter] at hr
    simpa using hr.2
  · intro h
    have hall := List.find?_eq_none.mp h
    unfold Driver.Store.Destroy
    simp only
    rw [List.filter_eq_self.mpr]
    intro r hr
    simpa using hall r hr

/-- C7 witness: destroying the absent ID `"k"` in a one-record store succeeds,
leaves no `"k"` record, and leaves the table unchanged. -/
theorem claim_C7_witness :
    let st : Driver.Store := { db := [{ id := "a", data := "x", createdAt := 0, updatedAt := 0 }],
                               opts := { tableName := "sessions", skipCreateTable := false } }
    (st.Destroy "k" none).2 = none ∧ (st.Destroy "k" none).1.db = st.db := by
  intro st
  have h := claim_C7_idempotent_destroy st "k"
  exact ⟨h.1, h.2.2 (by decide)⟩

/-- C8.  Fail-soft reads, fail-loud writes: a `Read` whose underlying lookup
fails, or finds nothing, returns `("", nil)`; `Write`, `Destroy` and `Gc`
return the underlying statement error verbatim and leave the table unchanged. -/
theorem claim_C8_fail_soft_fail_loud (st : Driver.Store) (id data : String)
    (m now : Int) (e : String) :
    st.Read id (some e) = ("", none) ∧
    (Driver.findByID st.db id = none → st.Read id none = ("", none)) ∧
    st.Write id data now (some e) = (st, some e) ∧
    st.Destroy id (some e) = (st, some e) ∧
    st.Gc m now (some e) = (st, some e) := by
  refine ⟨rfl, ?_, rfl, rfl, rfl⟩
  intro h
  unfold Driver.Store.Read Driver.Store.getSessionByID
  simp only
  rw [h]
  rfl

/-- C8 witness: on a concrete one-record store with a failing statement, the
read is fail-soft and each mutation is fail-loud. -/
theorem claim_C8_witness :
    let st : Driver.Store := { db := [{ id := "a", data := "x", createdAt := 0, updatedAt := 0 }],
                               opts := { tableName := "sessions", skipCreateTable := false } }
    st.Read "a" (some "boom") = ("", none) ∧
    st.Read "k" none = ("", none) ∧
    st.Destroy "a" (some "boom") = (st, some "boom") := by
  intro st
  have h := claim_C8_fail_soft_fail_loud st "a" "x" 0 0 "boom"
  have h2 := claim_C8_fail_soft_fail_loud st "k" "x" 0 0 "boom"
  exact ⟨h.1, h2.2.1 (by decide), h.2.2.2.1⟩
